import Mathlib

/-!
Verification of the open-pr-agent review pipeline.

The development shallowly embeds the three source modules:
* `scripts/post_review.py` — `build_review_payload`, turning agent output
  JSON into a GitHub review payload;
* `main.py` — `post_github_comment`, the comment lifecycle (delete prior
  marker comments, post the new one);
* `scripts/emit_review_outputs.py` — the heredoc marker selection loop of
  `_write_multiline_output`.

Python strings are modelled as Lean `String` (a wrapper around `List Char`);
Python `str.strip` is modelled by `pyStrip`, dropping whitespace characters
from both ends, and `"sep".join` by `joinSep`.  JSON dictionaries are
modelled by structures whose optional fields are `Option`-valued, matching
the `.get` defaults the source uses.
-/

namespace OpenPRAgent

/-- Strip whitespace from both ends of a character list, as Python
`str.strip()` does on the corresponding string. -/
def stripList (l : List Char) : List Char :=
  ((l.dropWhile Char.isWhitespace).reverse.dropWhile Char.isWhitespace).reverse

/-- Python `s.strip()`. -/
def pyStrip (s : String) : String :=
  ⟨stripList s.data⟩

/-- Python `sep.join(xs)`. -/
def joinSep (sep : String) : List String → String
  | [] => ""
  | [x] => x
  | x :: y :: xs => x ++ (sep ++ joinSep sep (y :: xs))

/-- A JSON value sitting in the `line` field of a comment dictionary:
absent or JSON `null` (both read back as Python `None` by `.get`), an
integer, or any other non-integer value. -/
inductive PyVal where
  | null
  | intVal (n : Int)
  | other
deriving DecidableEq

/-- One entry of the `comments` list of the agent output JSON, as read by
`build_review_payload`: `comment.get("path")`, `comment.get("line")`,
`comment.get("comment", "")`. -/
structure RawComment where
  path : Option String
  line : PyVal
  comment : String
deriving DecidableEq

/-- The agent output dictionary as read by `build_review_payload`:
`decision` (absent key modelled as `none`, the source defaults it to
"COMMENT"), `summary` (defaulted to ""), `comments` (defaulted to `[]`). -/
structure AgentOutput where
  decision : Option String
  summary : String
  comments : List RawComment
deriving DecidableEq

/-- One inline comment record of the review payload. -/
structure InlineComment where
  path : String
  line : Int
  side : String
  body : String
deriving DecidableEq

/-- The review payload: `comments = none` models the key being absent from
the emitted JSON object. -/
structure ReviewPayload where
  event : String
  body : String
  comments : Option (List InlineComment)
deriving DecidableEq

/-- The `if not path or not body: continue` filter of the source loop:
a comment is kept when `path` is present and truthy (non-empty, with no
trimming applied to it) and the stripped comment text is non-empty. -/
def keepComment (c : RawComment) : Bool :=
  match c.path with
  | Option.none => false
  | Option.some p => decide (p ≠ "") && decide (pyStrip c.comment ≠ "")

/-- `isinstance(line, int)` on the modelled JSON value. -/
def isIntLine : PyVal → Bool
  | PyVal.intVal _ => true
  | _ => false

/-- The inline comment record the source builds for a kept comment with an
integer `line` (the defaults are never reached on kept comments). -/
def mkInline (c : RawComment) : InlineComment :=
  { path := c.path.getD ""
    line := match c.line with | PyVal.intVal n => n | _ => 0
    side := "RIGHT"
    body := pyStrip c.comment }

/-- The bullet `f"- {path}: {body}"` the source builds for a kept comment
without an integer `line`. -/
def mkBullet (c : RawComment) : String :=
  "- " ++ c.path.getD "" ++ ": " ++ pyStrip c.comment

/-- The comment loop of `build_review_payload`: walks the comment list in
order, producing the `inline_comments` and `general_notes` accumulators. -/
def processComments : List RawComment → List InlineComment × List String
  | [] => ([], [])
  | c :: rest =>
    let res := processComments rest
    if keepComment c then
      if isIntLine c.line then (mkInline c :: res.1, res.2)
      else (res.1, mkBullet c :: res.2)
    else res

/-- The `inline_comments` list produced by the loop. -/
def inline_comments (cs : List RawComment) : List InlineComment :=
  (processComments cs).1

/-- The `general_notes` list produced by the loop. -/
def general_notes (cs : List RawComment) : List String :=
  (processComments cs).2

/-- The literal fallback first line of the body. -/
def fallbackSummary : String := "Automated review result."

/-- `summary.strip() or "Automated review result."`. -/
def summary_line (out : AgentOutput) : String :=
  if pyStrip out.summary = "" then fallbackSummary else pyStrip out.summary

/-- The `body_lines` list assembled by the source before joining. -/
def bodyLines (out : AgentOutput) : List String :=
  if general_notes out.comments = [] then [summary_line out]
  else summary_line out :: "" :: "Additional notes:" :: general_notes out.comments

/-- The payload as assembled before the approval-downgrade check. -/
def base_payload (out : AgentOutput) : ReviewPayload :=
  { event := out.decision.getD "COMMENT"
    body := pyStrip (joinSep "\n" (bodyLines out))
    comments :=
      if inline_comments out.comments = [] then Option.none
      else Option.some (inline_comments out.comments) }

/-- The fixed downgrade sentence appended when an approval is downgraded. -/
def downgradeNotice : String :=
  "_Auto-review would approve, but this token cannot submit approvals._"

/-- `build_review_payload` of `scripts/post_review.py`, with the
environment-derived `allow_approvals` boolean taken as a parameter. -/
def build_review_payload (out : AgentOutput) (allow_approvals : Bool) : ReviewPayload :=
  let p := base_payload out
  if decide (p.event = "APPROVE") && !allow_approvals then
    { p with
        event := "COMMENT"
        body := pyStrip (p.body ++ "\n\n" ++ downgradeNotice) }
  else p

/-- Python `s.lower()`, character by character. -/
def pyLower (s : String) : String :=
  ⟨s.data.map Char.toLower⟩

/-- The parsing of the `OPEN_PR_AGENT_ALLOW_APPROVALS` environment variable:
`os.getenv(..., "").lower() in {"1", "true", "yes"}`.  `none` models an
unset variable. -/
def allow_approvals_of_env (v : Option String) : Bool :=
  let lv := pyLower (v.getD "")
  decide (lv = "1") || decide (lv = "true") || decide (lv = "yes")

/-- `build_review_payload` as actually run: the flag is read from the
environment value. -/
def build_review_payload_env (out : AgentOutput) (env : Option String) : ReviewPayload :=
  build_review_payload out (allow_approvals_of_env env)

/-- The sentinel marker `COMMENT_TAG` of `main.py`. -/
def COMMENT_TAG : String := "<!-- open-pr-agent-review -->"

/-- Python `COMMENT_TAG in body`. -/
def containsTag (body : String) : Bool :=
  decide (COMMENT_TAG.data <:+: body.data)

/-- A comment living on the issue/PR, as far as the lifecycle code reads
it: its API `id` and its `body`. -/
structure IssueComment where
  id : Nat
  body : String
deriving DecidableEq

/-- Failure injection for the three remote calls of `post_github_comment`:
whether the listing request raises, whether deleting a given comment id
raises, and whether the final posting request raises. -/
structure ApiBehavior where
  listFails : Bool
  deleteFails : Nat → Bool
  postFails : Bool

/-- The issue/PR comment store: the comments in display order plus the id
the API will hand to the next created comment. -/
structure IssueState where
  comments : List IssueComment
  nextId : Nat
deriving DecidableEq

/-- Effect of the `DELETE /issues/comments/{id}` call on the store. -/
def deleteById (cs : List IssueComment) (i : Nat) : List IssueComment :=
  cs.filter (fun c => decide (c.id ≠ i))

/-- The deletion loop of `post_github_comment`, iterating over the listed
page while the store mutates.  A failing deletion raises; the exception is
caught by the handler wrapping the whole loop, so the remaining page
entries are not visited and the store is returned as it stood. -/
def run_delete_loop (api : ApiBehavior) : List IssueComment → List IssueComment → List IssueComment
  | [], cs => cs
  | c :: page, cs =>
    if containsTag c.body then
      if api.deleteFails c.id then cs
      else run_delete_loop api page (deleteById cs c.id)
    else run_delete_loop api page cs

/-- `post_github_comment` of `main.py` as a transformer of the comment
store.  An empty token skips everything; the cleanup runs when
`delete_old_comments` is set and lists a single page of at most 100
comments (`params={"per_page": 100}`, no pagination); a listing or
deletion failure is caught by the handler around the cleanup block; the
new comment `f"{review}\n\n{COMMENT_TAG}"` is posted afterwards unless the
posting call itself fails, which is caught and logged. -/
def post_github_comment (review token : String) (delete_old_comments : Bool)
    (api : ApiBehavior) (st : IssueState) : IssueState :=
  if token = "" then st
  else
    let afterCleanup :=
      if delete_old_comments && !api.listFails then
        { st with comments := run_delete_loop api (st.comments.take 100) st.comments }
      else st
    if api.postFails then afterCleanup
    else
      { comments :=
          afterCleanup.comments ++ [⟨afterCleanup.nextId, review ++ "\n\n" ++ COMMENT_TAG⟩]
        nextId := afterCleanup.nextId + 1 }

/-- Number of comments in the store bearing the sentinel marker. -/
def countMarkers (cs : List IssueComment) : Nat :=
  cs.countP (fun c => containsTag c.body)

/-- The initial heredoc marker of `_write_multiline_output` in
`scripts/emit_review_outputs.py`. -/
def EOF_MARKER_BASE : String := "EOF_REVIEW_BODY"

/-- The `while marker in value: marker += "_X"` loop over character
lists.  Termination: each round the marker grows by two characters while
it can be an infix of `value` only as long as it is no longer than
`value`. -/
def findMarkerList (value : List Char) (marker : List Char) : List Char :=
  if marker <:+: value then findMarkerList value (marker ++ ['_', 'X'])
  else marker
termination_by value.length + 1 - marker.length
decreasing_by
  rename_i h
  have := List.IsInfix.length_le h
  simp [List.length_append]
  omega

/-- The marker `_write_multiline_output` settles on for a given value. -/
def heredoc_marker (value : String) : String :=
  ⟨findMarkerList value.data EOF_MARKER_BASE.data⟩

/-- The text `_write_multiline_output` writes:
`f"{key}<<{marker}\n{value}\n{marker}\n"`. -/
def write_multiline_output (key value : String) : String :=
  key ++ "<<" ++ heredoc_marker value ++ "\n" ++ value ++ "\n" ++ heredoc_marker value ++ "\n"

/-- Modelled from the spec: the canonical structured review comment of the
Output Normalizer (section 4.1 of the spec).  The normalizer itself is not
under `src/`; only the spec describes it. -/
structure SpecReviewComment where
  path : String
  line : Option Int
  comment : String
deriving DecidableEq

/-- Modelled from the spec: the canonical `ReviewOutput` the Output
Normalizer guarantees downstream. -/
structure SpecReviewOutput where
  decision : String
  summary : String
  comments : List SpecReviewComment
deriving DecidableEq

/-- Modelled from the spec: the sentinel `path` identifying the
unstructured source in the fallback output. -/
def FALLBACK_PATH : String := "unstructured-review"

/-- Modelled from the spec: the bounded summary length used by the
fallback (the data model recommends at most 120 characters). -/
def SUMMARY_MAX_LENGTH : Nat := 120

/-- Modelled from the spec: the first non-blank line of the raw text,
or the empty string when every line is blank. -/
def first_non_blank_line (raw : String) : String :=
  ⟨((raw.data.splitOn '\n').find? (fun l => !(stripList l).isEmpty)).getD []⟩

/-- Modelled from the spec: truncation to a bounded length with an
ellipsis marker appended when truncation happened. -/
def truncate_with_ellipsis (n : Nat) (s : String) : String :=
  if s.data.length ≤ n then s else (⟨s.data.take n⟩ : String) ++ "..."

/-- Modelled from the spec: the deterministic fallback `ReviewOutput`
built when the secondary structuring call fails — decision
`REQUEST_CHANGES`, summary the truncated first non-blank line of the raw
text, and one comment carrying the full raw text under the sentinel
path. -/
def fallback_review_output (raw : String) : SpecReviewOutput :=
  { decision := "REQUEST_CHANGES"
    summary := truncate_with_ellipsis SUMMARY_MAX_LENGTH (first_non_blank_line raw)
    comments := [⟨FALLBACK_PATH, Option.none, raw⟩] }

/-- Modelled from the spec: the Output Normalizer, given the raw agent
text and the result of the secondary structuring pass (`none` when that
pass raised, timed out, or returned unparseable output). -/
def normalize_agent_output (raw : String) (structured : Option SpecReviewOutput) : SpecReviewOutput :=
  match structured with
  | Option.some o => o
  | Option.none => fallback_review_output raw

/-- An optional character that, when present, is not whitespace. -/
def optNotWs (o : Option Char) : Bool :=
  (o.map (fun a => !a.isWhitespace)).getD true

/-- Head character of a character list is absent or not whitespace. -/
def headNotWs (l : List Char) : Bool :=
  optNotWs l.head?

/-- Last character of a character list is absent or not whitespace. -/
def lastNotWs (l : List Char) : Bool :=
  optNotWs l.getLast?

theorem dropWhile_ws_eq_self (l : List Char) (h : headNotWs l = true) :
    l.dropWhile Char.isWhitespace = l := by
  cases l with
  | nil => rfl
  | cons a t =>
    have ha : a.isWhitespace = false := by
      simpa [headNotWs, optNotWs] using h
    simp [List.dropWhile_cons, ha]

theorem headNotWs_reverse (l : List Char) : headNotWs l.reverse = lastNotWs l := by
  simp [headNotWs, lastNotWs, List.head?_reverse]

theorem lastNotWs_reverse (l : List Char) : lastNotWs l.reverse = headNotWs l := by
  simp [headNotWs, lastNotWs, List.getLast?_reverse]

theorem stripList_eq_self (l : List Char) (h1 : headNotWs l = true) (h2 : lastNotWs l = true) :
    stripList l = l := by
  unfold stripList
  rw [dropWhile_ws_eq_self l h1,
    dropWhile_ws_eq_self _ (by rw [headNotWs_reverse]; exact h2), List.reverse_reverse]

theorem headNotWs_dropWhile (l : List Char) :
    headNotWs (l.dropWhile Char.isWhitespace) = true := by
  induction l with
  | nil => rfl
  | cons a t ih =>
    rw [List.dropWhile_cons]
    by_cases ha : a.isWhitespace = true
    · simpa [ha] using ih
    · have ha' : a.isWhitespace = false := by simpa using ha
      simp [ha', headNotWs, optNotWs]

theorem getLast?_of_suffix {l₁ l₂ : List Char} (h : l₁ <:+ l₂) (hne : l₁ ≠ []) :
    l₁.getLast? = l₂.getLast? := by
  obtain ⟨t, rfl⟩ := h
  cases hl : l₁.getLast? with
  | none =>
    have hs := List.getLast?_isSome.mpr hne
    rw [hl] at hs
    simp at hs
  | some a => rw [List.getLast?_append, hl]; rfl

theorem headNotWs_stripList (l : List Char) : headNotWs (stripList l) = true := by
  unfold stripList
  rw [headNotWs_reverse]
  by_cases hy : (l.dropWhile Char.isWhitespace).reverse.dropWhile Char.isWhitespace = []
  · simp [hy, lastNotWs, optNotWs]
  · have hsuf := List.dropWhile_suffix (l := (l.dropWhile Char.isWhitespace).reverse)
      (Char.isWhitespace)
    have hgl := getLast?_of_suffix hsuf hy
    rw [List.getLast?_reverse] at hgl
    unfold lastNotWs
    rw [hgl]
    exact headNotWs_dropWhile l

theorem lastNotWs_stripList (l : List Char) : lastNotWs (stripList l) = true := by
  unfold stripList
  rw [lastNotWs_reverse]
  exact headNotWs_dropWhile _

theorem stripList_idem (l : List Char) : stripList (stripList l) = stripList l :=
  stripList_eq_self _ (headNotWs_stripList l) (lastNotWs_stripList l)

theorem headNotWs_append_left (a b : List Char) (ha : a ≠ []) :
    headNotWs (a ++ b) = headNotWs a := by
  cases a with
  | nil => exact absurd rfl ha
  | cons x t => simp [headNotWs, List.cons_append]

theorem lastNotWs_append_right (a b : List Char) (hb : b ≠ []) :
    lastNotWs (a ++ b) = lastNotWs b := by
  unfold lastNotWs
  rw [List.getLast?_append]
  cases hl : b.getLast? with
  | none =>
    have hs := List.getLast?_isSome.mpr hb
    rw [hl] at hs
    simp at hs
  | some x => rfl

theorem stripList_append_eq (a b : List Char) (ha : a ≠ []) (hb : b ≠ [])
    (h1 : headNotWs a = true) (h2 : lastNotWs b = true) :
    stripList (a ++ b) = a ++ b :=
  stripList_eq_self _ (by rw [headNotWs_append_left a b ha]; exact h1)
    (by rw [lastNotWs_append_right a b hb]; exact h2)

theorem stripList_ne_nil_head (l : List Char) (hne : l ≠ []) (h1 : headNotWs l = true) :
    stripList l ≠ [] ∧ (stripList l).head? = l.head? := by
  unfold stripList
  rw [dropWhile_ws_eq_self l h1]
  have hyne : l.reverse.dropWhile Char.isWhitespace ≠ [] := by
    intro hnil
    rw [List.dropWhile_eq_nil_iff] at hnil
    cases l with
    | nil => exact hne rfl
    | cons c t =>
      have hc : c.isWhitespace = false := by
        simpa [headNotWs, optNotWs] using h1
      have hmem : c ∈ (c :: t).reverse := by
        rw [List.mem_reverse]; exact List.mem_cons_self c t
      rw [hnil c hmem] at hc
      exact Bool.true_eq_false.mp hc
  refine ⟨by simpa using hyne, ?_⟩
  rw [List.head?_reverse, getLast?_of_suffix (List.dropWhile_suffix _) hyne,
    List.getLast?_reverse]

theorem pyStrip_idem (s : String) : pyStrip (pyStrip s) = pyStrip s :=
  congrArg String.mk (stripList_idem s.data)

theorem data_ne_nil_of_ne_empty {s : String} (h : s ≠ "") : s.data ≠ [] := by
  intro hd
  exact h (String.ext (by rw [hd]))

theorem processComments_eq (cs : List RawComment) :
    processComments cs =
      ((cs.filter (fun c => keepComment c && isIntLine c.line)).map mkInline,
       (cs.filter (fun c => keepComment c && !isIntLine c.line)).map mkBullet) := by
  induction cs with
  | nil => rfl
  | cons c rest ih =>
    by_cases hk : keepComment c = true
    · by_cases hi : isIntLine c.line = true
      · simp [processComments, ih, List.filter_cons, hk, hi]
      · have hi' : isIntLine c.line = false := by simpa using hi
        simp [processComments, ih, List.filter_cons, hk, hi']
    · have hk' : keepComment c = false := by simpa using hk
      simp [processComments, ih, List.filter_cons, hk']

theorem inline_comments_eq (cs : List RawComment) :
    inline_comments cs = (cs.filter (fun c => keepComment c && isIntLine c.line)).map mkInline := by
  unfold inline_comments
  rw [processComments_eq]

theorem general_notes_eq (cs : List RawComment) :
    general_notes cs = (cs.filter (fun c => keepComment c && !isIntLine c.line)).map mkBullet := by
  unfold general_notes
  rw [processComments_eq]

theorem keep_strip_ne {c : RawComment} (hk : keepComment c = true) :
    pyStrip c.comment ≠ "" := by
  unfold keepComment at hk
  cases hp : c.path with
  | none => rw [hp] at hk; exact absurd hk (by simp)
  | some p =>
    rw [hp] at hk
    have := (Bool.and_eq_true _ _).mp hk
    exact of_decide_eq_true this.2

theorem mkBullet_props {c : RawComment} (hk : keepComment c = true) :
    (mkBullet c).data ≠ [] ∧ lastNotWs (mkBullet c).data = true := by
  have hb : (pyStrip c.comment).data ≠ [] := data_ne_nil_of_ne_empty (keep_strip_ne hk)
  unfold mkBullet
  rw [String.data_append]
  refine ⟨by simp [hb], ?_⟩
  rw [lastNotWs_append_right _ _ hb]
  exact lastNotWs_stripList _

theorem general_notes_mem (cs : List RawComment) :
    ∀ s ∈ general_notes cs, s.data ≠ [] ∧ lastNotWs s.data = true := by
  intro s hs
  rw [general_notes_eq] at hs
  obtain ⟨c, hc, rfl⟩ := List.mem_map.mp hs
  have hk : keepComment c = true := by
    have := List.of_mem_filter hc
    exact ((Bool.and_eq_true _ _).mp this).1
  exact mkBullet_props hk

theorem joinSep_cons_cons (sep x y : String) (xs : List String) :
    joinSep sep (x :: y :: xs) = x ++ (sep ++ joinSep sep (y :: xs)) := rfl

theorem joinSep_last_append (xs : List String) (x : String) (hx : x.data ≠ []) :
    (joinSep "\n" (xs ++ [x])).data ≠ [] ∧
      lastNotWs (joinSep "\n" (xs ++ [x])).data = lastNotWs x.data := by
  induction xs with
  | nil => exact ⟨hx, rfl⟩
  | cons y ys ih =>
    cases hys : ys ++ [x] with
    | nil => exact absurd hys (by simp)
    | cons z zs =>
      have hxs : (y :: ys) ++ [x] = y :: z :: zs := by rw [List.cons_append, hys]
      rw [hxs, joinSep_cons_cons, ← hys, String.data_append, String.data_append]
      have hJ : (joinSep "\n" (ys ++ [x])).data ≠ [] := ih.1
      have htail : ("\n".data ++ (joinSep "\n" (ys ++ [x])).data) ≠ [] := by simp
      constructor
      · simp [hJ]
      · rw [lastNotWs_append_right _ _ htail, lastNotWs_append_right _ _ hJ]
        exact ih.2

theorem joinSep_head (x : String) (xs : List String) (hx : x.data ≠ []) :
    (joinSep "\n" (x :: xs)).data ≠ [] ∧
      headNotWs (joinSep "\n" (x :: xs)).data = headNotWs x.data := by
  cases xs with
  | nil => exact ⟨hx, rfl⟩
  | cons y ys =>
    rw [joinSep_cons_cons, String.data_append]
    exact ⟨by simp [hx], headNotWs_append_left _ _ hx⟩

theorem summary_line_props (out : AgentOutput) :
    (summary_line out).data ≠ [] ∧ headNotWs (summary_line out).data = true ∧
      lastNotWs (summary_line out).data = true := by
  unfold summary_line
  by_cases h : pyStrip out.summary = ""
  · rw [if_pos h]
    refine ⟨by decide, by decide, by decide⟩
  · rw [if_neg h]
    exact ⟨data_ne_nil_of_ne_empty h, headNotWs_stripList _, lastNotWs_stripList _⟩

theorem joined_body_props (out : AgentOutput) :
    (joinSep "\n" (bodyLines out)).data ≠ [] ∧
      headNotWs (joinSep "\n" (bodyLines out)).data = true ∧
      lastNotWs (joinSep "\n" (bodyLines out)).data = true := by
  obtain ⟨hs1, hs2, hs3⟩ := summary_line_props out
  unfold bodyLines
  by_cases hg : general_notes out.comments = []
  · rw [if_pos hg]
    exact ⟨hs1, hs2, hs3⟩
  · rw [if_neg hg]
    have hlast := List.dropLast_append_getLast hg
    obtain ⟨hgl1, hgl2⟩ := general_notes_mem out.comments _ (List.getLast_mem hg)
    have hlist : summary_line out :: "" :: "Additional notes:" :: general_notes out.comments =
        (summary_line out :: "" :: "Additional notes:" :: (general_notes out.comments).dropLast)
          ++ [(general_notes out.comments).getLast hg] := by
      simp only [List.cons_append]
      rw [hlast]
    have hL := joinSep_last_append
      (summary_line out :: "" :: "Additional notes:" :: (general_notes out.comments).dropLast)
      ((general_notes out.comments).getLast hg) hgl1
    have hH := joinSep_head (summary_line out)
      ("" :: "Additional notes:" :: general_notes out.comments) hs1
    rw [hlist]
    refine ⟨hL.1, ?_, hL.2.trans hgl2⟩
    rw [← hlist]
    exact hH.2.trans hs2

theorem base_payload_body (out : AgentOutput) :
    (base_payload out).body = joinSep "\n" (bodyLines out) := by
  obtain ⟨h1, h2, h3⟩ := joined_body_props out
  show pyStrip (joinSep "\n" (bodyLines out)) = joinSep "\n" (bodyLines out)
  exact (congrArg String.mk (stripList_eq_self _ h2 h3)).trans (String.ext rfl).symm.symm

theorem base_body_shape (out : AgentOutput) :
    (base_payload out).body =
      if general_notes out.comments = [] then summary_line out
      else summary_line out ++ "\n\nAdditional notes:\n"
        ++ joinSep "\n" (general_notes out.comments) := by
  rw [base_payload_body]
  unfold bodyLines
  by_cases hg : general_notes out.comments = []
  · rw [if_pos hg, if_pos hg]
    rfl
  · rw [if_neg hg, if_neg hg]
    cases hgen : general_notes out.comments with
    | nil => exact absurd hgen hg
    | cons g gs =>
      apply String.ext
      simp only [joinSep_cons_cons, String.data_append, List.append_assoc]
      congr 1

theorem build_payload_true_flag (out : AgentOutput) :
    build_review_payload out true = base_payload out := by
  unfold build_review_payload
  simp

theorem build_payload_of_not_approve (out : AgentOutput) (flag : Bool)
    (h : out.decision.getD "COMMENT" ≠ "APPROVE") :
    build_review_payload out flag = base_payload out := by
  unfold build_review_payload
  have hd : decide ((base_payload out).event = "APPROVE") = false := decide_eq_false h
  simp [hd]

theorem strip_downgrade (out : AgentOutput) :
    pyStrip ((base_payload out).body ++ "\n\n" ++ downgradeNotice) =
      (base_payload out).body ++ "\n\n" ++ downgradeNotice := by
  obtain ⟨h1, h2, h3⟩ := joined_body_props out
  have hb : (base_payload out).body = joinSep "\n" (bodyLines out) := base_payload_body out
  apply String.ext
  show stripList ((base_payload out).body ++ "\n\n" ++ downgradeNotice).data = _
  rw [String.data_append, String.data_append]
  have hane : ((base_payload out).body.data ++ "\n\n".data) ≠ [] := by
    rw [hb]; simp [h1]
  rw [stripList_append_eq _ _ hane (by decide) ?_ (by decide)]
  rw [headNotWs_append_left _ _ (by rw [hb]; exact h1), hb]
  exact h2

theorem build_payload_approve_noflag (out : AgentOutput)
    (h : out.decision = some "APPROVE") :
    build_review_payload out false =
      { event := "COMMENT"
        body := (base_payload out).body ++ "\n\n" ++ downgradeNotice
        comments := (base_payload out).comments } := by
  have he : (base_payload out).event = "APPROVE" := by
    show out.decision.getD "COMMENT" = "APPROVE"
    rw [h]
    rfl
  simp only [build_review_payload]
  rw [he]
  simp [strip_downgrade]

theorem keepComment_false_iff (c : RawComment) :
    keepComment c = false ↔
      (c.path = Option.none ∨ c.path = Option.some "" ∨ pyStrip c.comment = "") := by
  unfold keepComment
  cases hp : c.path with
  | none => simp
  | some p =>
    simp only [hp, Bool.and_eq_false_iff, decide_eq_false_iff_not, Decidable.not_not]
    constructor
    · rintro (h | h) <;> simp [h]
    · rintro (h | h | h) <;> simp_all

theorem countP_keep_split (cs : List RawComment) :
    cs.countP (fun c => keepComment c && isIntLine c.line)
      + cs.countP (fun c => keepComment c && !isIntLine c.line) = cs.countP keepComment := by
  induction cs with
  | nil => rfl
  | cons c rest ih =>
    simp only [List.countP_cons]
    cases hk : keepComment c <;> cases hi : isIntLine c.line <;> simp [hk, hi] <;> omega

theorem run_delete_loop_no_fail (api : ApiBehavior) (hdel : ∀ i, api.deleteFails i = false)
    (page : List IssueComment) :
    ∀ cs, run_delete_loop api page cs =
      cs.filter (fun x => !(page.any (fun c => containsTag c.body && decide (c.id = x.id)))) := by
  induction page with
  | nil => intro cs; simp [run_delete_loop]
  | cons c page ih =>
    intro cs
    by_cases ht : containsTag c.body = true
    · simp only [run_delete_loop, ht, if_true, hdel c.id, if_false]
      rw [ih]
      unfold deleteById
      rw [List.filter_filter]
      apply List.filter_congr
      intro x _
      simp only [List.any_cons, ht, Bool.true_and, Bool.not_or]
      cases hc : decide (c.id = x.id) with
      | true =>
        have := of_decide_eq_true hc
        simp [this]
      | false =>
        have := of_decide_eq_false hc
        have hx : decide (x.id ≠ c.id) = true := decide_eq_true (fun hxc => this hxc.symm)
        simp [hx]
    · have ht' : containsTag c.body = false := by simpa using ht
      simp only [run_delete_loop, ht']
      rw [if_neg (by simp), ih]
      apply List.filter_congr
      intro x _
      simp [List.any_cons, ht']

theorem run_delete_loop_abort (api : ApiBehavior) (c : IssueComment)
    (page cs : List IssueComment) (ht : containsTag c.body = true)
    (hf : api.deleteFails c.id = true) :
    run_delete_loop api (c :: page) cs = cs := by
  simp [run_delete_loop, ht, hf]

theorem cleanup_no_markers (api : ApiBehavior) (hdel : ∀ i, api.deleteFails i = false)
    (cs : List IssueComment) (hdrop : ∀ c ∈ cs.drop 100, containsTag c.body = false) :
    countMarkers (run_delete_loop api (cs.take 100) cs) = 0 := by
  rw [run_delete_loop_no_fail api hdel]
  unfold countMarkers
  rw [List.countP_eq_zero]
  intro a ha htag
  rw [List.mem_filter] at ha
  obtain ⟨hmem, hpred⟩ := ha
  rw [← List.take_append_drop 100 cs] at hmem
  cases List.mem_append.mp hmem with
  | inr hd =>
    rw [hdrop a hd] at htag
    exact Bool.false_ne_true htag
  | inl htk =>
    have hany : (cs.take 100).any (fun c => containsTag c.body && decide (c.id = a.id)) = true :=
      List.any_eq_true.mpr ⟨a, htk, by simp [htag]⟩
    rw [hany] at hpred
    simp at hpred

theorem containsTag_posted (review : String) :
    containsTag (review ++ "\n\n" ++ COMMENT_TAG) = true := by
  unfold containsTag
  apply decide_eq_true
  have hsuf : COMMENT_TAG.data <:+ (review ++ "\n\n" ++ COMMENT_TAG).data := by
    rw [String.data_append]
    exact List.suffix_append _ _
  exact hsuf.isInfix

theorem post_github_comment_ok (review token : String) (api : ApiBehavior) (st : IssueState)
    (htok : token ≠ "") (hpost : api.postFails = false) (hlist : api.listFails = false) :
    post_github_comment review token true api st =
      { comments := run_delete_loop api (st.comments.take 100) st.comments
          ++ [⟨st.nextId, review ++ "\n\n" ++ COMMENT_TAG⟩]
        nextId := st.nextId + 1 } := by
  simp only [post_github_comment]
  rw [if_neg htok]
  simp [hlist, hpost]

theorem post_always_appends (review token : String) (d : Bool) (api : ApiBehavior)
    (st : IssueState) (htok : token ≠ "") (hpost : api.postFails = false) :
    ∃ cs, (post_github_comment review token d api st).comments
        = cs ++ [⟨st.nextId, review ++ "\n\n" ++ COMMENT_TAG⟩] := by
  simp only [post_github_comment]
  rw [if_neg htok]
  by_cases hcond : (d && !api.listFails) = true
  · simp [hcond, hpost]
  · simp [hcond, hpost]

theorem findMarkerList_not_infix (v m : List Char) : ¬ (findMarkerList v m <:+: v) :=
  findMarkerList.induct v (fun m => ¬ (findMarkerList v m <:+: v))
    (fun x hx ih => by
      show ¬ (findMarkerList v x <:+: v)
      rw [findMarkerList.eq_def, if_pos hx]
      exact ih)
    (fun x hx => by
      show ¬ (findMarkerList v x <:+: v)
      rw [findMarkerList.eq_def, if_neg hx]
      exact hx) m

/-- Spec scenario check: an approval with no comments and the flag off is
downgraded to a COMMENT with the notice appended after a blank line. -/
theorem spec_scenario_approve_downgrade :
    build_review_payload ⟨Option.some "APPROVE", "Looks good", []⟩ false =
      ⟨"COMMENT",
        "Looks good\n\n_Auto-review would approve, but this token cannot submit approvals._",
        Option.none⟩ := by
  decide

/-- Spec scenario check: one inline and one general comment under
REQUEST_CHANGES. -/
theorem spec_scenario_request_changes :
    build_review_payload ⟨Option.some "REQUEST_CHANGES", "Found issues",
        [⟨Option.some "a.py", PyVal.intVal 10, "off-by-one"⟩,
         ⟨Option.some "b.py", PyVal.null, "missing test"⟩]⟩ false =
      ⟨"REQUEST_CHANGES",
        "Found issues\n\nAdditional notes:\n- b.py: missing test",
        Option.some [⟨"a.py", 10, "RIGHT", "off-by-one"⟩]⟩ := by
  decide

/-- Claim C1: for an agent output whose decision is APPROVE, the builder
with the allow-approvals flag false yields event COMMENT and a body that
is the rendered body followed by a blank line and the fixed downgrade
notice; with the flag true the event stays APPROVE and the body is the
rendered body unchanged. -/
theorem claim_C1 (out : AgentOutput) (h : out.decision = Option.some "APPROVE") :
    (build_review_payload out false).event = "COMMENT" ∧
    (build_review_payload out false).body
      = (base_payload out).body ++ "\n\n" ++ downgradeNotice ∧
    (build_review_payload out true).event = "APPROVE" ∧
    (build_review_payload out true).body = (base_payload out).body := by
  rw [build_payload_approve_noflag out h, build_payload_true_flag]
  refine ⟨rfl, rfl, ?_, rfl⟩
  show out.decision.getD "COMMENT" = "APPROVE"
  rw [h]
  rfl

/-- Witness for C1 at a concrete agent output. -/
theorem claim_C1_witness :
    (build_review_payload ⟨Option.some "APPROVE", "Looks good", []⟩ false).event = "COMMENT" ∧
    (build_review_payload ⟨Option.some "APPROVE", "Looks good", []⟩ false).body
      = (base_payload ⟨Option.some "APPROVE", "Looks good", []⟩).body ++ "\n\n" ++ downgradeNotice ∧
    (build_review_payload ⟨Option.some "APPROVE", "Looks good", []⟩ true).event = "APPROVE" ∧
    (build_review_payload ⟨Option.some "APPROVE", "Looks good", []⟩ true).body
      = (base_payload ⟨Option.some "APPROVE", "Looks good", []⟩).body :=
  claim_C1 ⟨Option.some "APPROVE", "Looks good", []⟩ rfl

/-- Claim C2: kept comments with an integer line map in order onto the
inline comment entries; kept comments without an integer line map in
order onto the bullet lines; the payload carries the comments key exactly
when the inline list is non-empty. -/
theorem claim_C2 (out : AgentOutput) (flag : Bool) :
    inline_comments out.comments
      = (out.comments.filter (fun c => keepComment c && isIntLine c.line)).map mkInline ∧
    general_notes out.comments
      = (out.comments.filter (fun c => keepComment c && !isIntLine c.line)).map mkBullet ∧
    (build_review_payload out flag).comments
      = (if inline_comments out.comments = [] then Option.none
         else Option.some (inline_comments out.comments)) := by
  refine ⟨inline_comments_eq _, general_notes_eq _, ?_⟩
  simp only [build_review_payload]
  split <;> rfl

/-- Claim C3 counterexample: a comment whose path is a single space has a
path that is empty after trimming, yet the builder keeps it — the path
check `if not path` tests Python truthiness and never trims. -/
theorem claim_C3_counterexample :
    pyStrip " " = "" ∧
    general_notes [⟨Option.some " ", PyVal.null, "x"⟩] = ["-  : x"] := by
  constructor <;> decide

/-- Claim C3 amended: comments whose path is absent or exactly the empty
string (no trimming applied), or whose comment text is empty after
trimming, are excluded from both outputs; no other comment is dropped. -/
theorem claim_C3_amended (cs : List RawComment) :
    inline_comments cs = inline_comments (cs.filter keepComment) ∧
    general_notes cs = general_notes (cs.filter keepComment) ∧
    (inline_comments cs).length + (general_notes cs).length = cs.countP keepComment ∧
    (∀ c : RawComment, keepComment c = false ↔
      (c.path = Option.none ∨ c.path = Option.some "" ∨ pyStrip c.comment = "")) := by
  refine ⟨?_, ?_, ?_, fun c => keepComment_false_iff c⟩
  · rw [inline_comments_eq, inline_comments_eq, List.filter_filter]
    refine congrArg _ (List.filter_congr ?_)
    intro x _
    cases hk : keepComment x <;> simp [hk]
  · rw [general_notes_eq, general_notes_eq, List.filter_filter]
    refine congrArg _ (List.filter_congr ?_)
    intro x _
    cases hk : keepComment x <;> simp [hk]
  · rw [inline_comments_eq, general_notes_eq, List.length_map, List.length_map,
      ← List.countP_eq_length_filter, ← List.countP_eq_length_filter, countP_keep_split]

/-- Claim C4: the rendered body opens with the trimmed summary, or the
literal fallback when the summary trims to empty, and when general
comments survive the filter it continues with a blank line, the literal
header, and one bullet per general comment in order; the comments key is
present exactly when the inline list is non-empty. -/
theorem claim_C4 (out : AgentOutput) (flag : Bool) :
    (base_payload out).body =
      (if general_notes out.comments = [] then summary_line out
       else summary_line out ++ "\n\nAdditional notes:\n"
         ++ joinSep "\n" (general_notes out.comments)) ∧
    summary_line out =
      (if pyStrip out.summary = "" then "Automated review result." else pyStrip out.summary) ∧
    general_notes out.comments
      = (out.comments.filter (fun c => keepComment c && !isIntLine c.line)).map mkBullet ∧
    (build_review_payload out flag).comments
      = (if inline_comments out.comments = [] then Option.none
         else Option.some (inline_comments out.comments)) := by
  refine ⟨base_body_shape out, rfl, general_notes_eq _, ?_⟩
  simp only [build_review_payload]
  split <;> rfl

/-- Claim C5: the payload builder is a function of the agent output and
the allow-approvals flag alone; equal inputs give equal payloads, and the
environment influences the result only through the parsed flag. -/
theorem claim_C5 (out₁ out₂ : AgentOutput) (f₁ f₂ : Bool) (e₁ e₂ : Option String)
    (hout : out₁ = out₂) (hf : f₁ = f₂)
    (henv : allow_approvals_of_env e₁ = allow_approvals_of_env e₂) :
    build_review_payload out₁ f₁ = build_review_payload out₂ f₂ ∧
    build_review_payload_env out₁ e₁ = build_review_payload_env out₂ e₂ := by
  subst hout
  subst hf
  refine ⟨rfl, ?_⟩
  unfold build_review_payload_env
  rw [henv]

/-- Witness for C5: two differently-cased environment values parse to the
same flag and give identical payloads. -/
theorem claim_C5_witness :
    build_review_payload ⟨Option.none, "s", []⟩ true
        = build_review_payload ⟨Option.none, "s", []⟩ true ∧
    build_review_payload_env ⟨Option.none, "s", []⟩ (Option.some "TRUE")
        = build_review_payload_env ⟨Option.none, "s", []⟩ (Option.some "true") :=
  claim_C5 ⟨Option.none, "s", []⟩ ⟨Option.none, "s", []⟩ true true
    (Option.some "TRUE") (Option.some "true") rfl rfl (by decide)

/-- Claim C6 counterexample: two marker comments; deleting the first
fails.  The claim says the second is still processed, but the run leaves
both in place — only the posting is still attempted. -/
theorem claim_C6_counterexample :
    post_github_comment "r" "tok" true
      ⟨false, fun i => decide (i = 1), false⟩
      ⟨[⟨1, COMMENT_TAG⟩, ⟨2, COMMENT_TAG⟩], 3⟩ =
      ⟨[⟨1, COMMENT_TAG⟩, ⟨2, COMMENT_TAG⟩, ⟨3, "r" ++ "\n\n" ++ COMMENT_TAG⟩], 4⟩ := by
  decide

/-- Claim C6 amended: a deletion failure is caught by the handler wrapping
the whole cleanup block — the loop stops, so later matching comments are
not processed — and posting the new comment is still attempted. -/
theorem claim_C6_amended (review token : String) (d : Bool) (api : ApiBehavior)
    (st : IssueState) (htok : token ≠ "") (hpost : api.postFails = false) :
    (∀ (c : IssueComment) (page cs : List IssueComment),
      containsTag c.body = true → api.deleteFails c.id = true →
        run_delete_loop api (c :: page) cs = cs) ∧
    ∃ cs, (post_github_comment review token d api st).comments
        = cs ++ [⟨st.nextId, review ++ "\n\n" ++ COMMENT_TAG⟩] :=
  ⟨fun c page cs ht hf => run_delete_loop_abort api c page cs ht hf,
   post_always_appends review token d api st htok hpost⟩

/-- Witness for C6 at a concrete failing API. -/
theorem claim_C6_witness :
    ∃ cs, (post_github_comment "r" "tok" true ⟨false, fun _ => true, false⟩
        ⟨[⟨1, COMMENT_TAG⟩], 5⟩).comments
      = cs ++ [⟨5, "r" ++ "\n\n" ++ COMMENT_TAG⟩] :=
  (claim_C6_amended "r" "tok" true ⟨false, fun _ => true, false⟩
    ⟨[⟨1, COMMENT_TAG⟩], 5⟩ (by decide) rfl).2

set_option maxRecDepth 40000 in
/-- Claim C7 counterexample: with 101 marker comments the single listed
page covers only 100 of them, so after a failure-free run two marker
comments remain, not one. -/
theorem claim_C7_counterexample :
    countMarkers (post_github_comment "r" "tok" true
      ⟨false, fun _ => false, false⟩
      ⟨(List.range 101).map (fun i => ⟨i, COMMENT_TAG⟩), 500⟩).comments = 2 := by
  decide

/-- Claim C7 amended: when every marker comment sits in the single listed
page (none beyond the first 100 comments) a failure-free run leaves
exactly one marker comment — the newly posted one, whose body is the
review followed by the marker. -/
theorem claim_C7_amended (review token : String) (api : ApiBehavior) (st : IssueState)
    (htok : token ≠ "") (hpost : api.postFails = false) (hlist : api.listFails = false)
    (hdel : ∀ i, api.deleteFails i = false)
    (hdrop : ∀ c ∈ st.comments.drop 100, containsTag c.body = false) :
    countMarkers (post_github_comment review token true api st).comments = 1 ∧
    (post_github_comment review token true api st).comments.getLast?
      = Option.some ⟨st.nextId, review ++ "\n\n" ++ COMMENT_TAG⟩ := by
  rw [post_github_comment_ok review token api st htok hpost hlist]
  constructor
  · show countMarkers (_ ++ _) = 1
    unfold countMarkers
    rw [List.countP_append]
    have h0 := cleanup_no_markers api hdel st.comments hdrop
    unfold countMarkers at h0
    rw [h0]
    simp [containsTag_posted review]
  · rw [List.getLast?_append]
    rfl

/-- Witness for C7: three prior comments, two of them marked. -/
theorem claim_C7_witness :
    countMarkers (post_github_comment "r" "tok" true ⟨false, fun _ => false, false⟩
      ⟨[⟨1, COMMENT_TAG⟩, ⟨2, "hello"⟩, ⟨3, COMMENT_TAG⟩], 7⟩).comments = 1 ∧
    (post_github_comment "r" "tok" true ⟨false, fun _ => false, false⟩
      ⟨[⟨1, COMMENT_TAG⟩, ⟨2, "hello"⟩, ⟨3, COMMENT_TAG⟩], 7⟩).comments.getLast?
      = Option.some ⟨7, "r" ++ "\n\n" ++ COMMENT_TAG⟩ :=
  claim_C7_amended "r" "tok" ⟨false, fun _ => false, false⟩
    ⟨[⟨1, COMMENT_TAG⟩, ⟨2, "hello"⟩, ⟨3, COMMENT_TAG⟩], 7⟩
    (by decide) rfl rfl (fun _ => rfl) (by decide)

/-- Claim C8: when the structuring pass yields nothing the normalizer
returns the deterministic fallback — decision REQUEST_CHANGES, summary
the bounded-length first non-blank line of the raw text, and a single
comment carrying the full raw text under the sentinel path.  Totality of
the normalizer is the never-fatal part. -/
theorem claim_C8 (raw : String) :
    normalize_agent_output raw Option.none = fallback_review_output raw ∧
    (normalize_agent_output raw Option.none).decision = "REQUEST_CHANGES" ∧
    (normalize_agent_output raw Option.none).summary
      = truncate_with_ellipsis SUMMARY_MAX_LENGTH (first_non_blank_line raw) ∧
    (normalize_agent_output raw Option.none).summary.data.length ≤ SUMMARY_MAX_LENGTH + 3 ∧
    (normalize_agent_output raw Option.none).comments
      = [⟨FALLBACK_PATH, Option.none, raw⟩] := by
  refine ⟨rfl, rfl, rfl, ?_, rfl⟩
  show (truncate_with_ellipsis SUMMARY_MAX_LENGTH (first_non_blank_line raw)).data.length ≤ _
  unfold truncate_with_ellipsis SUMMARY_MAX_LENGTH
  by_cases h : (first_non_blank_line raw).data.length ≤ 120
  · rw [if_pos h]
    omega
  · rw [if_neg h]
    rw [String.data_append, List.length_append, List.length_take]
    have h3 : ("..." : String).data.length = 3 := by decide
    rw [h3]
    omega

/-- Claim C9: an absent decision key yields event COMMENT, and any other
decision value is copied verbatim into the event, never downgraded. -/
theorem claim_C9 (out : AgentOutput) (flag : Bool) :
    (out.decision = Option.none → (build_review_payload out flag).event = "COMMENT") ∧
    (∀ d : String, out.decision = Option.some d → d ≠ "APPROVE" →
      (build_review_payload out flag).event = d ∧
      build_review_payload out flag = base_payload out) := by
  constructor
  · intro h
    have hgd : out.decision.getD "COMMENT" = "COMMENT" := by rw [h]; rfl
    rw [build_payload_of_not_approve out flag (by rw [hgd]; decide)]
    exact hgd
  · intro d hd hne
    have hgd : out.decision.getD "COMMENT" = d := by rw [hd]; rfl
    have heq := build_payload_of_not_approve out flag (by rw [hgd]; exact hne)
    exact ⟨by rw [heq]; exact hgd, heq⟩

/-- Witness for C9 at two concrete agent outputs. -/
theorem claim_C9_witness :
    (build_review_payload ⟨Option.none, "s", []⟩ true).event = "COMMENT" ∧
    (build_review_payload ⟨Option.some "X", "s", []⟩ true).event = "X" :=
  ⟨(claim_C9 ⟨Option.none, "s", []⟩ true).1 rfl,
   ((claim_C9 ⟨Option.some "X", "s", []⟩ true).2 "X" rfl (by decide)).1⟩

/-- Claim C10: the marker-selection loop terminates (the recursion is
justified by the strictly decreasing bound on the remaining length) and
the marker it settles on is never an infix of the value, so the heredoc
block is unambiguously delimited. -/
theorem claim_C10 (value : String) :
    ¬ ((heredoc_marker value).data <:+: value.data) :=
  findMarkerList_not_infix value.data EOF_MARKER_BASE.data

end OpenPRAgent
